import Mathlib

/-!
Shallow embedding of the ops0-cli intent-resolution and command-synthesis
pipeline (Go sources: `ParseIntent` and the `extract*Command` helpers,
`handleInteraction`, and the one-shot `main` flow), together with proofs
about the embedded definitions.

Strings are modelled as Lean `String` / `List Char`; the Go regular
expressions used by `ParseIntent` are all alternations of concatenations of
literal alternatives separated by `.*` (which in Go's RE2 matches any
character except a newline), so they are embedded by an executable scanner
over `List Char` that implements exactly that semantics.  The `?`-suffixed
literals (`pods?` and so on) are expanded into the equivalent two-literal
alternation.  The ambient PATH probe (`isCommandAvailable`) is modelled by
an explicit environment of booleans.
-/

namespace Ops0

/-- ASCII lower-casing of one character, as Go `strings.ToLower` acts on the
ASCII inputs relevant here. -/
def lowerChar (c : Char) : Char :=
  if 'A' ≤ c ∧ c ≤ 'Z' then Char.ofNat (c.toNat + 32) else c

/-- Go `strings.ToLower` (restricted to ASCII, which covers every input the
rule matcher treats specially). -/
def goToLower (s : String) : String := ⟨s.data.map lowerChar⟩

/-- Shorthand: the character list of a string literal. -/
def lit (s : String) : List Char := s.data

/-- RE2 character class `\s`, i.e. `[\t\n\f\r ]`. -/
def isSpaceRE2 (c : Char) : Bool :=
  c = ' ' || c = '\t' || c = '\n' || c = '\x0c' || c = '\r'

/-- The capture class `[a-zA-Z0-9-]` used by the pod / namespace / package /
service capture groups. -/
def isWordChar (c : Char) : Bool :=
  ('a' ≤ c && c ≤ 'z') || ('A' ≤ c && c ≤ 'Z') || ('0' ≤ c && c ≤ '9') || c = '-'

/-- Whitespace as used by Go `strings.Fields` (`unicode.IsSpace`, restricted
to ASCII). -/
def isFieldsSpace (c : Char) : Bool :=
  c = ' ' || c = '\t' || c = '\n' || c = '\x0b' || c = '\x0c' || c = '\r'

/-- `isPrefB w s` decides whether `w` is a prefix of `s`. -/
def isPrefB : List Char → List Char → Bool
  | [], _ => true
  | _ :: _, [] => false
  | a :: w, b :: s => a = b && isPrefB w s

/-- `isSufB w s` decides whether `w` is a suffix of `s`. -/
def isSufB (w s : List Char) : Bool := isPrefB w.reverse s.reverse

/-- `isSubB w s` decides whether `w` occurs as a contiguous substring of
`s`; this embeds Go `strings.Contains`. -/
def isSubB (w : List Char) : List Char → Bool
  | [] => isPrefB w []
  | x :: t => isPrefB w (x :: t) || isSubB w t

/-- Go `strings.Contains(s, sub)`. -/
def goContains (s sub : String) : Bool := isSubB sub.data s.data

theorem isPrefB_nil (s : List Char) : isPrefB [] s = true := by
  cases s <;> rfl

theorem isPrefB_refl (s : List Char) : isPrefB s s = true := by
  induction s with
  | nil => rfl
  | cons a t ih => simp [isPrefB, ih]

theorem isPrefB_append_right {w s : List Char} (t : List Char)
    (h : isPrefB w s = true) : isPrefB w (s ++ t) = true := by
  induction w generalizing s with
  | nil => exact isPrefB_nil _
  | cons a w ih =>
    cases s with
    | nil => exact absurd h (by simp [isPrefB])
    | cons b s =>
      simp only [isPrefB, Bool.and_eq_true, decide_eq_true_eq] at h
      simp [isPrefB, h.1, ih h.2]

theorem isPrefB_mem {w s : List Char} {c : Char}
    (h : isPrefB w s = true) (hc : c ∈ w) : c ∈ s := by
  induction w generalizing s with
  | nil => cases hc
  | cons a w ih =>
    cases s with
    | nil => exact absurd h (by simp [isPrefB])
    | cons b s =>
      simp only [isPrefB, Bool.and_eq_true, decide_eq_true_eq] at h
      rcases List.mem_cons.mp hc with rfl | hc
      · exact h.1 ▸ List.mem_cons_self _ _
      · exact List.mem_cons_of_mem _ (ih h.2 hc)

theorem isPrefB_eq_append {u w : List Char} (h : isPrefB u w = true) :
    u ++ w.drop u.length = w := by
  induction u generalizing w with
  | nil => simp
  | cons a u ih =>
    cases w with
    | nil => exact absurd h (by simp [isPrefB])
    | cons b w =>
      simp only [isPrefB, Bool.and_eq_true, decide_eq_true_eq] at h
      simpa [h.1] using ih h.2

theorem isPrefB_length {u w : List Char} (h : isPrefB u w = true) :
    u.length ≤ w.length := by
  induction u generalizing w with
  | nil => simp
  | cons a u ih =>
    cases w with
    | nil => exact absurd h (by simp [isPrefB])
    | cons b w =>
      simp only [isPrefB, Bool.and_eq_true, decide_eq_true_eq] at h
      simpa using ih h.2

theorem isSufB_refl (s : List Char) : isSufB s s = true := isPrefB_refl _

theorem isSufB_cons {w s : List Char} (x : Char)
    (h : isSufB w s = true) : isSufB w (x :: s) = true := by
  unfold isSufB at h ⊢
  rw [List.reverse_cons]
  exact isPrefB_append_right [x] h

theorem isSufB_mem {w s : List Char} {c : Char}
    (h : isSufB w s = true) (hc : c ∈ w) : c ∈ s := by
  unfold isSufB at h
  have := isPrefB_mem h (List.mem_reverse.mpr hc)
  exact List.mem_reverse.mp this

theorem isSubB_of_isPrefB {w s : List Char} (h : isPrefB w s = true) :
    isSubB w s = true := by
  cases s <;> simp [isSubB, h]

theorem isSubB_cons {w s : List Char} (x : Char)
    (h : isSubB w s = true) : isSubB w (x :: s) = true := by
  simp [isSubB, h]

theorem isSubB_mem {w s : List Char} {c : Char}
    (h : isSubB w s = true) (hc : c ∈ w) : c ∈ s := by
  induction s with
  | nil =>
    simp only [isSubB] at h
    cases w with
    | nil => cases hc
    | cons a w => exact absurd h (by simp [isPrefB])
  | cons b t ih =>
    simp only [isSubB, Bool.or_eq_true] at h
    rcases h with h | h
    · exact isPrefB_mem h hc
    · exact List.mem_cons_of_mem _ (ih h)

theorem allMem {p : Char → Bool} {l : List Char} (h : l.all p = true)
    {x : Char} (hx : x ∈ l) : p x = true := by
  induction l with
  | nil => cases hx
  | cons a t ih =>
    simp only [List.all_cons, Bool.and_eq_true] at h
    rcases List.mem_cons.mp hx with rfl | hx
    · exact h.1
    · exact ih h.2 hx

/-- Splitting a prefix fact across an append: `w` is either a prefix of the
left part, or it swallows the left part whole. -/
theorem isPrefB_append_cases {w a b : List Char}
    (h : isPrefB w (a ++ b) = true) :
    isPrefB w a = true ∨ (isPrefB a w = true ∧ isPrefB (w.drop a.length) b = true) := by
  induction a generalizing w with
  | nil => exact Or.inr ⟨isPrefB_nil _, by simpa using h⟩
  | cons x a ih =>
    cases w with
    | nil => exact Or.inl (isPrefB_nil _)
    | cons y w =>
      simp only [List.cons_append, isPrefB, Bool.and_eq_true, decide_eq_true_eq] at h
      rcases ih h.2 with h1 | ⟨h1, h2⟩
      · exact Or.inl (by simp [isPrefB, h.1, h1])
      · exact Or.inr ⟨by simp [isPrefB, h.1.symm, h1], by simpa using h2⟩

/-- Splitting a substring fact across an append: the occurrence lies in the
left part, in the right part, or straddles the boundary. -/
theorem isSubB_append_cases {w a b : List Char}
    (h : isSubB w (a ++ b) = true) :
    isSubB w a = true ∨ isSubB w b = true ∨
      ∃ w₁ w₂, w₁ ++ w₂ = w ∧ w₁ ≠ [] ∧ w₂ ≠ [] ∧
        isSufB w₁ a = true ∧ isPrefB w₂ b = true := by
  induction a generalizing w with
  | nil => exact Or.inr (Or.inl (by simpa using h))
  | cons x a ih =>
    simp only [List.cons_append, isSubB, Bool.or_eq_true] at h
    rcases h with h | h
    · rcases isPrefB_append_cases (a := x :: a) h with h1 | ⟨h1, h2⟩
      · exact Or.inl (isSubB_of_isPrefB h1)
      · by_cases hw : w.drop (x :: a).length = []
        · left
          have hw2 := isPrefB_eq_append h1
          rw [hw, List.append_nil] at hw2
          exact isSubB_of_isPrefB (hw2 ▸ isPrefB_refl w)
        · refine Or.inr (Or.inr ⟨x :: a, w.drop (x :: a).length,
            isPrefB_eq_append h1, by simp, hw, isSufB_refl _, h2⟩)
    · rcases ih h with h1 | h1 | ⟨w₁, w₂, hw, hn1, hn2, hsuf, hpre⟩
      · exact Or.inl (isSubB_cons _ h1)
      · exact Or.inr (Or.inl h1)
      · exact Or.inr (Or.inr ⟨w₁, w₂, hw, hn1, hn2, isSufB_cons _ hsuf, hpre⟩)

/-- The streaming-follow marker `"tail -f"` as a character list. -/
def tailF : List Char := ['t', 'a', 'i', 'l', ' ', '-', 'f']

/-- Every way of splitting `"tail -f"` into two contiguous pieces. -/
theorem tailF_splits {w₁ w₂ : List Char} (h : w₁ ++ w₂ = tailF) :
    (w₁ = [] ∧ w₂ = tailF) ∨
    (w₁ = ['t'] ∧ w₂ = ['a', 'i', 'l', ' ', '-', 'f']) ∨
    (w₁ = ['t', 'a'] ∧ w₂ = ['i', 'l', ' ', '-', 'f']) ∨
    (w₁ = ['t', 'a', 'i'] ∧ w₂ = ['l', ' ', '-', 'f']) ∨
    (w₁ = ['t', 'a', 'i', 'l'] ∧ w₂ = [' ', '-', 'f']) ∨
    (w₁ = ['t', 'a', 'i', 'l', ' '] ∧ w₂ = ['-', 'f']) ∨
    (w₁ = ['t', 'a', 'i', 'l', ' ', '-'] ∧ w₂ = ['f']) ∨
    (w₁ = tailF ∧ w₂ = []) := by
  cases w₁ with
  | nil => exact Or.inl ⟨rfl, by simpa using h⟩
  | cons c1 w₁ =>
  replace h : c1 = 't' ∧ w₁ ++ w₂ = ['a', 'i', 'l', ' ', '-', 'f'] := by
    simpa [tailF] using h
  obtain ⟨rfl, h⟩ := h
  cases w₁ with
  | nil => exact Or.inr (Or.inl ⟨rfl, by simpa using h⟩)
  | cons c2 w₁ =>
  replace h : c2 = 'a' ∧ w₁ ++ w₂ = ['i', 'l', ' ', '-', 'f'] := by simpa using h
  obtain ⟨rfl, h⟩ := h
  cases w₁ with
  | nil => exact Or.inr (Or.inr (Or.inl ⟨rfl, by simpa using h⟩))
  | cons c3 w₁ =>
  replace h : c3 = 'i' ∧ w₁ ++ w₂ = ['l', ' ', '-', 'f'] := by simpa using h
  obtain ⟨rfl, h⟩ := h
  cases w₁ with
  | nil => exact Or.inr (Or.inr (Or.inr (Or.inl ⟨rfl, by simpa using h⟩)))
  | cons c4 w₁ =>
  replace h : c4 = 'l' ∧ w₁ ++ w₂ = [' ', '-', 'f'] := by simpa using h
  obtain ⟨rfl, h⟩ := h
  cases w₁ with
  | nil => exact Or.inr (Or.inr (Or.inr (Or.inr (Or.inl ⟨rfl, by simpa using h⟩))))
  | cons c5 w₁ =>
  replace h : c5 = ' ' ∧ w₁ ++ w₂ = ['-', 'f'] := by simpa using h
  obtain ⟨rfl, h⟩ := h
  cases w₁ with
  | nil =>
    exact Or.inr (Or.inr (Or.inr (Or.inr (Or.inr (Or.inl ⟨rfl, by simpa using h⟩)))))
  | cons c6 w₁ =>
  replace h : c6 = '-' ∧ w₁ ++ w₂ = ['f'] := by simpa using h
  obtain ⟨rfl, h⟩ := h
  cases w₁ with
  | nil =>
    exact Or.inr (Or.inr (Or.inr (Or.inr (Or.inr (Or.inr (Or.inl ⟨rfl, by simpa using h⟩))))))
  | cons c7 w₁ =>
  replace h : c7 = 'f' ∧ w₁ ++ w₂ = [] := by simpa using h
  obtain ⟨rfl, h⟩ := h
  obtain ⟨rfl, rfl⟩ : w₁ = [] ∧ w₂ = [] := by simpa using h
  exact Or.inr (Or.inr (Or.inr (Or.inr (Or.inr (Or.inr (Or.inr ⟨rfl, rfl⟩))))))

/-- A segment of capture-class characters contains no space. -/
theorem wordSeg_space_not_mem {seg : List Char}
    (hseg : seg.all isWordChar = true) : ' ' ∉ seg := fun h =>
  absurd (allMem hseg h) (by decide)

/-- The pod-log preview command `kubectl logs <pod> -n <ns> --tail=100`
never contains the streaming flag `"tail -f"`, whatever capture-class pod
and namespace names are spliced in. -/
theorem kubectl_logs_no_tailf (pod ns : List Char)
    (hp : pod.all isWordChar = true) (hn : ns.all isWordChar = true) :
    isSubB tailF
      (lit "kubectl logs " ++ (pod ++ (lit " -n " ++ (ns ++ lit " --tail=100")))) = false := by
  cases hcon : isSubB tailF
      (lit "kubectl logs " ++ (pod ++ (lit " -n " ++ (ns ++ lit " --tail=100")))) with
  | false => rfl
  | true =>
  exfalso
  rcases isSubB_append_cases hcon with h | h | ⟨w₁, w₂, hw, hne1, hne2, hsuf, hpre⟩
  · exact absurd h (by decide)
  · rcases isSubB_append_cases h with h | h | ⟨w₁, w₂, hw, hne1, hne2, hsuf, hpre⟩
    · exact wordSeg_space_not_mem hp (isSubB_mem h (by decide))
    · rcases isSubB_append_cases h with h | h | ⟨w₁, w₂, hw, hne1, hne2, hsuf, hpre⟩
      · exact absurd h (by decide)
      · rcases isSubB_append_cases h with h | h | ⟨w₁, w₂, hw, hne1, hne2, hsuf, hpre⟩
        · exact wordSeg_space_not_mem hn (isSubB_mem h (by decide))
        · exact absurd h (by decide)
        · rcases tailF_splits hw with hsp | hsp | hsp | hsp | hsp | hsp | hsp | hsp <;>
            obtain ⟨rfl, rfl⟩ := hsp
          · exact hne1 rfl
          · exact absurd hpre (by decide)
          · exact absurd hpre (by decide)
          · exact absurd hpre (by decide)
          · exact absurd hpre (by decide)
          · exact wordSeg_space_not_mem hn (isSufB_mem hsuf (by decide))
          · exact wordSeg_space_not_mem hn (isSufB_mem hsuf (by decide))
          · exact hne2 rfl
      · rcases tailF_splits hw with hsp | hsp | hsp | hsp | hsp | hsp | hsp | hsp <;>
          obtain ⟨rfl, rfl⟩ := hsp
        · exact hne1 rfl
        · exact absurd hsuf (by decide)
        · exact absurd hsuf (by decide)
        · exact absurd hsuf (by decide)
        · exact absurd hsuf (by decide)
        · exact absurd hsuf (by decide)
        · exact absurd hsuf (by decide)
        · exact hne2 rfl
    · rcases tailF_splits hw with hsp | hsp | hsp | hsp | hsp | hsp | hsp | hsp <;>
        obtain ⟨rfl, rfl⟩ := hsp
      · exact hne1 rfl
      · rcases isPrefB_append_cases hpre with h1 | ⟨h1, _⟩ <;> exact absurd h1 (by decide)
      · rcases isPrefB_append_cases hpre with h1 | ⟨h1, _⟩ <;> exact absurd h1 (by decide)
      · rcases isPrefB_append_cases hpre with h1 | ⟨h1, _⟩ <;> exact absurd h1 (by decide)
      · rcases isPrefB_append_cases hpre with h1 | ⟨h1, _⟩ <;> exact absurd h1 (by decide)
      · exact wordSeg_space_not_mem hp (isSufB_mem hsuf (by decide))
      · exact wordSeg_space_not_mem hp (isSufB_mem hsuf (by decide))
      · exact hne2 rfl
  · rcases tailF_splits hw with hsp | hsp | hsp | hsp | hsp | hsp | hsp | hsp <;>
      obtain ⟨rfl, rfl⟩ := hsp
    · exact hne1 rfl
    · exact absurd hsuf (by decide)
    · exact absurd hsuf (by decide)
    · exact absurd hsuf (by decide)
    · exact absurd hsuf (by decide)
    · exact absurd hsuf (by decide)
    · exact absurd hsuf (by decide)
    · exact hne2 rfl

/-- Try every alternative literal at the current position; `k` is the
continuation run on the remainder after a matched alternative (this gives
the full backtracking semantics of an RE2 alternation of literals). -/
def hitThen (alts : List (List Char)) (k : List Char → Bool) (s : List Char) : Bool :=
  alts.any fun a => isPrefB a s && k (s.drop a.length)

/-- A `.*` gap (RE2 dot: anything but a newline): try `p` here and at every
later position reachable without crossing a newline. -/
def gapTo (p : List Char → Bool) : List Char → Bool
  | [] => p []
  | c :: t => p (c :: t) || (!(c = '\n') && gapTo p t)

/-- Unanchored search: try `p` at every position of the input. -/
def scanStart (p : List Char → Bool) : List Char → Bool
  | [] => p []
  | c :: t => p (c :: t) || scanStart p t

/-- The trivial continuation (end of pattern). -/
def trueK : List Char → Bool := fun _ => true

/-- Matchability of the Go regex `(a₁|a₂|…).*(b₁|b₂|…)` on the input. -/
def matchSeq2 (f s : List (List Char)) (t : List Char) : Bool :=
  scanStart (hitThen f (gapTo (hitThen s trueK))) t

/-- Matchability of the Go regex `(a₁|…).*(b₁|…).*(c₁|…)` on the input. -/
def matchSeq3 (f s u : List (List Char)) (t : List Char) : Bool :=
  scanStart (hitThen f (gapTo (hitThen s (gapTo (hitThen u trueK))))) t

theorem hitThen_intro {alts : List (List Char)} {k : List Char → Bool}
    {s a : List Char} (ha : a ∈ alts) (hp : isPrefB a s = true)
    (hk : k (s.drop a.length) = true) : hitThen alts k s = true := by
  unfold hitThen
  rw [List.any_eq_true]
  exact ⟨a, ha, by simp [hp, hk]⟩

theorem gapTo_intro {p : List Char → Bool} (gap rest : List Char)
    (hg : gap.all (fun c => !(c = '\n')) = true) (hp : p rest = true) :
    gapTo p (gap ++ rest) = true := by
  induction gap with
  | nil =>
    cases rest with
    | nil => simpa [gapTo] using hp
    | cons c t => simp [gapTo, hp]
  | cons c g ih =>
    simp only [List.all_cons, Bool.and_eq_true] at hg
    simp [gapTo, ih hg.2, hg.1]

theorem scanStart_intro {p : List Char → Bool} (i : Nat) {s : List Char}
    (hp : p (s.drop i) = true) : scanStart p s = true := by
  induction s generalizing i with
  | nil => simpa using hp
  | cons c t ih =>
    cases i with
    | zero =>
      simp only [List.drop_zero] at hp
      simp [scanStart, hp]
    | succ j => simp [scanStart, ih (i := j) (by simpa using hp)]

theorem scanStart_cons_of {p : List Char → Bool} {t : List Char} (c : Char)
    (h : scanStart p t = true) : scanStart p (c :: t) = true := by
  simp [scanStart, h]

theorem takeWhile_all (p : Char → Bool) (l : List Char) :
    (l.takeWhile p).all p = true := by
  induction l with
  | nil => rfl
  | cons c t ih =>
    by_cases h : p c = true
    · simp [List.takeWhile_cons, h, ih]
    · simp [List.takeWhile_cons, h]

theorem allOfSub {p : Char → Bool} {q r : List Char} (hsub : q ⊆ r)
    (hall : r.all p = true) : q.all p = true := by
  induction q with
  | nil => rfl
  | cons c t ih =>
    have hc := allMem hall (hsub (List.mem_cons_self c t))
    have ht := ih fun x hx => hsub (List.mem_cons_of_mem _ hx)
    simp [hc, ht]

theorem allImp {p q : Char → Bool} (h : ∀ c, p c = true → q c = true)
    {l : List Char} (hall : l.all p = true) : l.all q = true := by
  induction l with
  | nil => rfl
  | cons c t ih =>
    simp only [List.all_cons, Bool.and_eq_true] at hall
    simp [h c hall.1, ih hall.2]

/-- One attempt of a `(key₁|key₂|…)\s+([a-zA-Z0-9-]+)` match anchored at the
current position: the first alternative key that is a literal prefix, then
one-or-more `\s` characters (greedy), then a greedy non-empty capture of
`[a-zA-Z0-9-]` characters.  Returns the matched key and the capture. -/
def matchKeysAt (keys : List (List Char)) (s : List Char) :
    Option (List Char × List Char) :=
  match keys.find? (fun k => isPrefB k s) with
  | none => none
  | some k =>
    if ((s.drop k.length).takeWhile isSpaceRE2).isEmpty ||
        (((s.drop k.length).dropWhile isSpaceRE2).takeWhile isWordChar).isEmpty then
      none
    else
      some (k, ((s.drop k.length).dropWhile isSpaceRE2).takeWhile isWordChar)

/-- Leftmost scan of `matchKeysAt`, embedding `FindStringSubmatch` for the
regexes of the shape `(key…)\s+([a-zA-Z0-9-]+)`. -/
def findKeyCap (keys : List (List Char)) : List Char → Option (List Char × List Char)
  | [] => none
  | c :: t =>
    match matchKeysAt keys (c :: t) with
    | some r => some r
    | none => findKeyCap keys t

theorem matchKeysAt_sound {keys : List (List Char)} {s k cap : List Char}
    (h : matchKeysAt keys s = some (k, cap)) :
    cap ≠ [] ∧ cap.all isWordChar = true := by
  unfold matchKeysAt at h
  split at h
  · exact absurd h (by simp)
  · rename_i k' hf
    split at h
    · exact absurd h (by simp)
    · rename_i hc
      obtain ⟨rfl, rfl⟩ : k' = k ∧
          ((s.drop k'.length).dropWhile isSpaceRE2).takeWhile isWordChar = cap := by
        simpa using h
      refine ⟨?_, takeWhile_all _ _⟩
      intro hnil
      simp only [Bool.or_eq_true, List.isEmpty_iff, not_or] at hc
      exact hc.2 hnil

theorem findKeyCap_sound {keys : List (List Char)} {s k cap : List Char}
    (h : findKeyCap keys s = some (k, cap)) :
    cap ≠ [] ∧ cap.all isWordChar = true := by
  induction s with
  | nil => exact absurd h (by simp [findKeyCap])
  | cons c t ih =>
    rw [findKeyCap] at h
    split at h
    · rename_i r hm
      obtain rfl : r = (k, cap) := by simpa using h
      exact matchKeysAt_sound hm
    · exact ih h

/-- The literal `.log`. -/
def dotLogLit : List Char := ['.', 'l', 'o', 'g']

/-- Greedy backtracking for `[^\s]+\.log` inside the non-space run `r`:
the largest `k ≥ 1` such that `.log` starts right after the first `k`
characters (RE2 tries the longest `[^\s]+` first and backtracks). -/
def bestAux (r : List Char) : Nat → Option Nat
  | 0 => none
  | k + 1 => if isPrefB dotLogLit (r.drop (k + 1)) then some (k + 1) else bestAux r k

/-- Entry point of the greedy search, starting from the longest candidate. -/
def bestDotLog (r : List Char) : Option Nat := bestAux r r.length

/-- The sub-pattern `/[^\s]+\.log` anchored at the current position,
returning the captured path on success. -/
def matchSlashPathAt : List Char → Option (List Char)
  | '/' :: rest =>
    match bestDotLog (rest.takeWhile (fun c => !(isSpaceRE2 c))) with
    | some k =>
      some ('/' :: ((rest.takeWhile (fun c => !(isSpaceRE2 c))).take k ++ dotLogLit))
    | none => none
  | _ => none

/-- The lazy gap `[^\n]*?` before the path pattern: try the path match at
each successive position, never crossing a newline. -/
def lazyGapFind : List Char → Option (List Char)
  | [] => none
  | c :: t =>
    match matchSlashPathAt (c :: t) with
    | some p => some p
    | none => if c = '\n' then none else lazyGapFind t

/-- The analysis verbs `analyze|review|check|summarize|inspect}`. -/
def analysisVerbs : List (List Char) :=
  [lit "analyze", lit "review", lit "check", lit "summarize", lit "inspect"]

/-- The noun group `(logs?|log files?|pod logs?)` of the log-analysis rule,
with each `?` expanded into the equivalent explicit alternation. -/
def logNounAlts : List (List Char) :=
  [lit "logs", lit "log", lit "log files", lit "log file", lit "pod logs", lit "pod log"]

/-- The alternation of analysis verbs anchored at the current position (the
verbs start with pairwise distinct letters, so at most one can match). -/
def verbAt (s : List Char) : Option (List Char) :=
  analysisVerbs.find? (fun v => isPrefB v s)

/-- The final rule's regex
`(?:analyze|review|check|summarize|inspect)[^\n]*?(/[^\s]+\.log)`:
leftmost scan over start positions; at each, an alternative verb followed by
the lazy gap and the path pattern. -/
def fileFindAux : List Char → Option (List Char)
  | [] => none
  | c :: t =>
    match verbAt (c :: t) with
    | some v =>
      match lazyGapFind ((c :: t).drop v.length) with
      | some p => some p
      | none => fileFindAux t
    | none => fileFindAux t

theorem bestAux_sound {r : List Char} {n k : Nat} (h : bestAux r n = some k) :
    isPrefB dotLogLit (r.drop k) = true ∧ 1 ≤ k := by
  induction n with
  | zero => exact absurd h (by simp [bestAux])
  | succ m ih =>
    rw [bestAux] at h
    split at h
    · rename_i hpre
      obtain rfl : m + 1 = k := by simpa using h
      exact ⟨hpre, by omega⟩
    · exact ih h

theorem matchSlashPathAt_sound {u p : List Char}
    (h : matchSlashPathAt u = some p) :
    ∃ q rest2, u = '/' :: (q ++ ('.' :: 'l' :: 'o' :: 'g' :: rest2)) ∧ q ≠ [] ∧
      q.all (fun c => !(isSpaceRE2 c)) = true ∧ p = '/' :: (q ++ dotLogLit) := by
  unfold matchSlashPathAt at h
  split at h
  · rename_i rest
    split at h
    · rename_i k hbest
      obtain rfl : '/' :: ((rest.takeWhile (fun c => !(isSpaceRE2 c))).take k ++ dotLogLit) = p := by
        simpa using h
      obtain ⟨hpre, hk⟩ := bestAux_sound hbest
      set r := rest.takeWhile (fun c => !(isSpaceRE2 c)) with hr
      have hlen4 : 4 ≤ (r.drop k).length := by
        simpa [dotLogLit] using isPrefB_length hpre
      have hrk : dotLogLit ++ (r.drop k).drop dotLogLit.length = r.drop k :=
        isPrefB_eq_append hpre
      refine ⟨r.take k, (r.drop k).drop 4 ++ rest.dropWhile (fun c => !(isSpaceRE2 c)),
        ?_, ?_, ?_, rfl⟩
      · have hrest : rest = r ++ rest.dropWhile (fun c => !(isSpaceRE2 c)) := by
          rw [hr]; exact (List.takeWhile_append_dropWhile _ _).symm
        have hrk4 : dotLogLit ++ (r.drop k).drop 4 = r.drop k := hrk
        have hgoal : rest = r.take k ++ ('.' :: 'l' :: 'o' :: 'g' ::
            ((r.drop k).drop 4 ++ rest.dropWhile (fun c => !(isSpaceRE2 c)))) := by
          conv_lhs => rw [hrest, ← List.take_append_drop k r, ← hrk4]
          simp [dotLogLit, List.append_assoc]
        exact congrArg (fun l => '/' :: l) hgoal
      · intro hnil
        have : (r.take k).length = 0 := by rw [hnil]; rfl
        rw [List.length_take] at this
        have hlen : k ≤ r.length := by
          have := List.length_drop k r
          omega
        omega
      · exact allOfSub (List.take_subset _ _) (takeWhile_all _ rest)
    · exact absurd h (by simp)
  · exact absurd h (by simp)

theorem nonspace_ne_nl : ∀ c : Char, (!(isSpaceRE2 c)) = true → (!(c = '\n')) = true := by
  intro c hc
  by_cases h : c = '\n'
  · subst h; exact absurd hc (by decide)
  · simp [h]

theorem matchSlashPathAt_gapTo {u p : List Char} (h : matchSlashPathAt u = some p) :
    gapTo (hitThen logNounAlts trueK) u = true := by
  obtain ⟨q, rest2, rfl, hq0, hq, rfl⟩ := matchSlashPathAt_sound h
  have hsplit : ('/' :: (q ++ ('.' :: 'l' :: 'o' :: 'g' :: rest2)) : List Char) =
      ('/' :: (q ++ ['.'])) ++ ('l' :: 'o' :: 'g' :: rest2) := by
    simp [List.append_assoc]
  rw [hsplit]
  refine gapTo_intro _ _ ?_ ?_
  · have hq' : q.all (fun c => !(c = '\n')) = true := allImp nonspace_ne_nl hq
    simp only [List.all_cons, List.all_append]
    simp [hq']
  · exact hitThen_intro (a := lit "log") (by decide) (by simp [isPrefB, lit]) rfl

theorem lazyGapFind_sound {u p : List Char} (h : lazyGapFind u = some p) :
    gapTo (hitThen logNounAlts trueK) u = true := by
  induction u with
  | nil => exact absurd h (by simp [lazyGapFind])
  | cons c t ih =>
    rw [lazyGapFind] at h
    split at h
    · rename_i p' hm
      exact matchSlashPathAt_gapTo (p := p') hm
    · rename_i hm
      split at h
      · exact absurd h (by simp)
      · rename_i hne
        have := ih h
        rw [gapTo]
        simp [this, hne]

/-- Soundness of the final file-path rule with respect to the earlier
log-analysis rule: whenever the file-path regex matches, the regex
`(analyze|review|check|summarize|inspect).*(logs?|log files?|pod logs?)`
matches as well. -/
theorem fileFindAux_matchSeq2 {s p : List Char} (h : fileFindAux s = some p) :
    matchSeq2 analysisVerbs logNounAlts s = true := by
  induction s with
  | nil => exact absurd h (by simp [fileFindAux])
  | cons c t ih =>
    rw [fileFindAux] at h
    split at h
    · rename_i v hv
      split at h
      · rename_i p' hlazy
        have hv' : analysisVerbs.find? (fun w => isPrefB w (c :: t)) = some v := hv
        have hmem : v ∈ analysisVerbs := List.mem_of_find?_eq_some hv'
        have hpre : isPrefB v (c :: t) = true := by simpa using List.find?_some hv'
        unfold matchSeq2
        refine scanStart_intro 0 ?_
        simp only [List.drop_zero]
        exact hitThen_intro hmem hpre (lazyGapFind_sound hlazy)
      · exact scanStart_cons_of _ (ih h)
    · exact scanStart_cons_of _ (ih h)

/-- The central value object (Go struct `CommandSuggestion`); the Go
`float64` confidence only ever carries exact decimal constants here and is
modelled as a rational number. -/
structure CommandSuggestion where
  tool : String
  command : String
  dryRunCommand : String := ""
  description : String
  intent : String
  confidence : ℚ
  aiGenerated : Bool
  hasDryRun : Bool
  deriving Repr, DecidableEq

/-- The ambient PATH probe (`isCommandAvailable`) for the three package
managers consulted by `extractPackageCommand`. -/
structure Env where
  apt : Bool
  yum : Bool
  dnf : Bool
  deriving Repr, DecidableEq

/-- A concrete environment: `apt` available (the common case and also the
code's fallback default). -/
def defaultEnv : Env := ⟨true, false, false⟩

/-- Package-manager detection inside `extractPackageCommand`: probe apt,
then yum, then dnf, defaulting to apt. -/
def pkgManager (env : Env) : String :=
  if env.apt then "apt" else if env.yum then "yum" else if env.dnf then "dnf" else "apt"

/-- Keys of the regex `(install|update|upgrade)\s+([a-zA-Z0-9-]+)`. -/
def packageKeys : List (List Char) := [lit "install", lit "update", lit "upgrade"]

/-- `extractPackageCommand` (Go): lower-cases, probes the package manager,
runs the regex, prefers the update/upgrade phrasing, else installs the
captured name, else plain update. -/
def extractPackageCommand (env : Env) (input : String) : String :=
  let input := goToLower input
  let pm := pkgManager env
  let m := findKeyCap packageKeys input.data
  if goContains input "update" || goContains input "upgrade" then
    "sudo " ++ pm ++ " update && sudo " ++ pm ++ " upgrade -y"
  else
    match m with
    | some (_, pkg) => "sudo " ++ pm ++ " install -y " ++ ⟨pkg⟩
    | none => "sudo " ++ pm ++ " update"

/-- Keys of the regex `(start|stop|restart|status)\s+([a-zA-Z0-9-]+)`. -/
def serviceKeys : List (List Char) :=
  [lit "start", lit "stop", lit "restart", lit "status"]

/-- `extractServiceCommand` (Go): `sudo systemctl <action> <service>` on a
regex match, else list running services. -/
def extractServiceCommand (input : String) : String :=
  let input := goToLower input
  match findKeyCap serviceKeys input.data with
  | some (act, svc) => "sudo systemctl " ++ (⟨act⟩ : String) ++ " " ++ (⟨svc⟩ : String)
  | none => "systemctl list-units --type=service --state=running"

/-- `extractSystemMonitorCommand` (Go). -/
def extractSystemMonitorCommand (input : String) : String :=
  let input := goToLower input
  if goContains input "memory" || goContains input "ram" then "free -h"
  else if goContains input "disk" || goContains input "storage" || goContains input "df" then
    "df -h"
  else if goContains input "cpu" || goContains input "processor" || goContains input "top" then
    "top -b -n 1"
  else
    "echo '=== Memory Usage ===' && free -h && echo -e '\n=== Disk Usage ===' && df -h && echo -e '\n=== CPU Usage ===' && top -b -n 1"

/-- `extractLogCommand` (Go): journal/system → bounded journalctl; a `tail`
mention → the streaming `tail -f` syslog command; default journalctl. -/
def extractLogCommand (input : String) : String :=
  let input := goToLower input
  if goContains input "journal" || goContains input "system" then "sudo journalctl -n 50"
  else if goContains input "tail" then "sudo tail -f /var/log/syslog"
  else "sudo journalctl -n 50"

/-- Go `strings.Fields` (split on whitespace), with an explicit fuel that is
always sufficient because each round consumes at least one character. -/
def goFieldsAux : Nat → List Char → List (List Char)
  | 0, _ => []
  | fuel + 1, s =>
    let s1 := s.dropWhile isFieldsSpace
    match s1 with
    | [] => []
    | _ :: _ =>
      s1.takeWhile (fun c => !(isFieldsSpace c)) ::
        goFieldsAux fuel (s1.dropWhile (fun c => !(isFieldsSpace c)))

/-- Go `strings.Fields`. -/
def goFields (s : List Char) : List (List Char) := goFieldsAux s.length s

/-- The indexed loop over `strings.Fields` in the pod-status rule: the first
occurrence of the literal token `namespace` that has a following token. -/
def findNamespaceToken : List (List Char) → Option (List Char)
  | [] => none
  | [_] => none
  | wd :: next :: rest =>
    if wd = lit "namespace" then some next else findNamespaceToken (next :: rest)

/-- Suggestion of the local system-resource monitoring rule. -/
def sysMonitorSug (t : String) : CommandSuggestion :=
  { tool := "system_admin", command := extractSystemMonitorCommand t,
    description := "This will show system resource usage and monitoring information for your local machine.",
    intent := "monitor local system resources", confidence := 0.95,
    aiGenerated := false, hasDryRun := false }

/-- Suggestion of the terraform-plan rule. -/
def tfPlanSug : CommandSuggestion :=
  { tool := "terraform", command := "terraform plan", dryRunCommand := "",
    description := "This will show you what changes Terraform will make to your infrastructure without actually applying them.",
    intent := "plan infrastructure changes", confidence := 0.8,
    aiGenerated := false, hasDryRun := false }

/-- Suggestion of the terraform-apply rule. -/
def tfApplySug : CommandSuggestion :=
  { tool := "terraform", command := "terraform apply", dryRunCommand := "terraform plan",
    description := "This will apply your Terraform configuration and make the actual infrastructure changes.",
    intent := "apply infrastructure changes", confidence := 0.8,
    aiGenerated := false, hasDryRun := true }

/-- Suggestion of the terraform-destroy rule. -/
def tfDestroySug : CommandSuggestion :=
  { tool := "terraform", command := "terraform destroy",
    dryRunCommand := "terraform plan -destroy",
    description := "This will destroy all resources managed by your Terraform configuration.",
    intent := "destroy infrastructure", confidence := 0.8,
    aiGenerated := false, hasDryRun := true }

/-- Suggestion of the ansible-scaffold rule; the command carries the full
(lower-cased) user message for the downstream generator. -/
def ansibleScaffoldSug (t : String) : CommandSuggestion :=
  { tool := "ansible_scaffold", command := t,
    description := "Scaffold a new Ansible project (playbook + inventory) from your request.",
    intent := "scaffold ansible project", confidence := 0.95,
    aiGenerated := false, hasDryRun := false }

/-- Suggestion of the run-playbook rule. -/
def ansibleRunSug : CommandSuggestion :=
  { tool := "ansible", command := "ansible-playbook playbook.yml",
    dryRunCommand := "ansible-playbook playbook.yml --check",
    description := "This will run your Ansible playbook to configure your servers.",
    intent := "run ansible playbook", confidence := 0.8,
    aiGenerated := false, hasDryRun := true }

/-- Suggestion of the ansible-check rule. -/
def ansibleCheckSug : CommandSuggestion :=
  { tool := "ansible", command := "ansible-playbook playbook.yml --check",
    description := "This will do a dry run of your Ansible playbook without making actual changes.",
    intent := "check ansible playbook", confidence := 0.8,
    aiGenerated := false, hasDryRun := false }

/-- Suggestion of the pod-status rule when a namespace token was found. -/
def podsNsSug (ns : String) : CommandSuggestion :=
  { tool := "kubectl", command := "kubectl get pods -n " ++ ns,
    description := "This will show all pods in the " ++ ns ++ " namespace and their status.",
    intent := "check pod status in specific namespace", confidence := 0.9,
    aiGenerated := false, hasDryRun := false }

/-- Suggestion of the pod-status rule without a namespace. -/
def podsDefaultSug : CommandSuggestion :=
  { tool := "kubectl", command := "kubectl get pods",
    description := "This will show all pods in the current namespace and their status.",
    intent := "check pod status", confidence := 0.8,
    aiGenerated := false, hasDryRun := false }

/-- Suggestion of the kubectl-apply rule. -/
def k8sApplySug : CommandSuggestion :=
  { tool := "kubectl", command := "kubectl apply -f .",
    dryRunCommand := "kubectl apply -f . --dry-run=client",
    description := "This will apply Kubernetes manifests in the current directory.",
    intent := "apply kubernetes manifests", confidence := 0.8,
    aiGenerated := false, hasDryRun := true }

/-- Suggestion of the kubectl-delete rule. -/
def k8sDeleteSug : CommandSuggestion :=
  { tool := "kubectl", command := "kubectl delete -f .",
    dryRunCommand := "kubectl delete -f . --dry-run=client",
    description := "This will delete resources defined in Kubernetes manifests in the current directory.",
    intent := "delete kubernetes resources", confidence := 0.8,
    aiGenerated := false, hasDryRun := true }

/-- Suggestion of the docker-ps rule. -/
def dockerPsSug : CommandSuggestion :=
  { tool := "docker", command := "docker ps",
    description := "This will show all currently running Docker containers.",
    intent := "list running containers", confidence := 0.9,
    aiGenerated := false, hasDryRun := false }

/-- Suggestion of the docker-build rule. -/
def dockerBuildSug : CommandSuggestion :=
  { tool := "docker", command := "docker build -t my-app .",
    description := "This will build a Docker image from the Dockerfile in current directory.",
    intent := "build docker image", confidence := 0.8,
    aiGenerated := false, hasDryRun := false }

/-- Suggestion of the docker-images rule. -/
def dockerImagesSug : CommandSuggestion :=
  { tool := "docker", command := "docker images",
    description := "This will show all Docker images on your system.",
    intent := "list docker images", confidence := 0.9,
    aiGenerated := false, hasDryRun := false }

/-- Suggestion of the EC2-listing rule. -/
def awsEc2Sug : CommandSuggestion :=
  { tool := "aws", command := "aws ec2 describe-instances",
    description := "This will show all EC2 instances in your AWS account.",
    intent := "list EC2 instances", confidence := 0.8,
    aiGenerated := false, hasDryRun := false }

/-- Suggestion of the S3-listing rule. -/
def awsS3Sug : CommandSuggestion :=
  { tool := "aws", command := "aws s3 ls",
    description := "This will list all S3 buckets in your AWS account.",
    intent := "list S3 buckets", confidence := 0.8,
    aiGenerated := false, hasDryRun := false }

/-- Suggestion of the package-management rule. -/
def pkgSug (env : Env) (t : String) : CommandSuggestion :=
  { tool := "system_admin", command := extractPackageCommand env t,
    description := "This will manage packages on your system using the appropriate package manager.",
    intent := "manage system packages", confidence := 0.9,
    aiGenerated := false, hasDryRun := false }

/-- Suggestion of the service-management rule. -/
def svcSug (t : String) : CommandSuggestion :=
  { tool := "system_admin", command := extractServiceCommand t,
    description := "This will manage system services using systemctl.",
    intent := "manage system services", confidence := 0.9,
    aiGenerated := false, hasDryRun := false }

/-- Suggestion of the view-system-logs rule. -/
def viewLogsSug (t : String) : CommandSuggestion :=
  { tool := "system_admin", command := extractLogCommand t,
    description := "This will show system logs and journal entries.",
    intent := "view system logs", confidence := 0.9,
    aiGenerated := false, hasDryRun := false }

/-- Suggestion of the pod-log analysis sub-rule. -/
def podLogSug (pod ns : List Char) : CommandSuggestion :=
  { tool := "kubectl",
    command := ⟨lit "kubectl logs " ++ (pod ++ (lit " -n " ++ (ns ++ lit " --tail=100")))⟩,
    description := ⟨lit "Fetch and analyze the last 100 log lines for pod '" ++ pod ++
      lit "' in namespace '" ++ ns ++ lit "'."⟩,
    intent := "analyze_logs", confidence := 0.95,
    aiGenerated := false, hasDryRun := false }

/-- Suggestion of the generic log-analysis fallback. -/
def genLogSug (t : String) : CommandSuggestion :=
  { tool := "system_admin", command := extractLogCommand t,
    description := "Fetch and analyze recent system logs.",
    intent := "analyze_logs", confidence := 0.9,
    aiGenerated := false, hasDryRun := false }

/-- Suggestion of the final log-file-path rule. -/
def fileLogSug (p : List Char) : CommandSuggestion :=
  { tool := "system_admin", command := ⟨lit "tail -n 100 " ++ p⟩,
    description := ⟨lit "Fetch and analyze the last 100 lines of log file: " ++ p⟩,
    intent := "analyze_logs", confidence := 0.95,
    aiGenerated := false, hasDryRun := false }

/-- Regex `(check|show|display|get).*(disk|memory|cpu|system).*usage|df.*-h|free.*-h|top`. -/
def sysUsageGuard (t : List Char) : Bool :=
  matchSeq3 [lit "check", lit "show", lit "display", lit "get"]
    [lit "disk", lit "memory", lit "cpu", lit "system"] [lit "usage"] t ||
  matchSeq2 [lit "df"] [lit "-h"] t || matchSeq2 [lit "free"] [lit "-h"] t ||
  isSubB (lit "top") t

/-- The locality keywords guarding the system-resource rule. -/
def localityGuard (t : List Char) : Bool :=
  isSubB (lit "device") t || isSubB (lit "local") t || isSubB (lit "my") t ||
  isSubB (lit "machine") t || isSubB (lit "system") t

/-- Regex `(plan|planning).*iac|terraform.*plan|infrastructure.*plan`. -/
def tfPlanGuard (t : List Char) : Bool :=
  matchSeq2 [lit "plan", lit "planning"] [lit "iac"] t ||
  matchSeq2 [lit "terraform"] [lit "plan"] t ||
  matchSeq2 [lit "infrastructure"] [lit "plan"] t

/-- Regex `apply.*terraform|deploy.*infrastructure|apply.*iac`. -/
def tfApplyGuard (t : List Char) : Bool :=
  matchSeq2 [lit "apply"] [lit "terraform"] t ||
  matchSeq2 [lit "deploy"] [lit "infrastructure"] t ||
  matchSeq2 [lit "apply"] [lit "iac"] t

/-- Regex `destroy.*infrastructure|tear.*down|terraform.*destroy`. -/
def tfDestroyGuard (t : List Char) : Bool :=
  matchSeq2 [lit "destroy"] [lit "infrastructure"] t ||
  matchSeq2 [lit "tear"] [lit "down"] t ||
  matchSeq2 [lit "terraform"] [lit "destroy"] t

/-- Regex `(setup|create|init|generate).*ansible.*project|ansible.*playbook.*inventory`. -/
def ansibleScaffoldGuard (t : List Char) : Bool :=
  matchSeq3 [lit "setup", lit "create", lit "init", lit "generate"]
    [lit "ansible"] [lit "project"] t ||
  matchSeq3 [lit "ansible"] [lit "playbook"] [lit "inventory"] t

/-- Regex `run.*playbook|execute.*ansible|ansible.*playbook`. -/
def ansibleRunGuard (t : List Char) : Bool :=
  matchSeq2 [lit "run"] [lit "playbook"] t ||
  matchSeq2 [lit "execute"] [lit "ansible"] t ||
  matchSeq2 [lit "ansible"] [lit "playbook"] t

/-- Regex `check.*ansible|dry.*run.*ansible|ansible.*check`. -/
def ansibleCheckGuard (t : List Char) : Bool :=
  matchSeq2 [lit "check"] [lit "ansible"] t ||
  matchSeq3 [lit "dry"] [lit "run"] [lit "ansible"] t ||
  matchSeq2 [lit "ansible"] [lit "check"] t

/-- Regex `(get|list|show).*pods?|pods?.*status|check.*pods?`. -/
def podsGuard (t : List Char) : Bool :=
  matchSeq2 [lit "get", lit "list", lit "show"] [lit "pods", lit "pod"] t ||
  matchSeq2 [lit "pods", lit "pod"] [lit "status"] t ||
  matchSeq2 [lit "check"] [lit "pods", lit "pod"] t

/-- Regex `apply.*kubernetes|deploy.*k8s|kubectl.*apply`. -/
def k8sApplyGuard (t : List Char) : Bool :=
  matchSeq2 [lit "apply"] [lit "kubernetes"] t ||
  matchSeq2 [lit "deploy"] [lit "k8s"] t ||
  matchSeq2 [lit "kubectl"] [lit "apply"] t

/-- Regex `delete.*kubernetes|remove.*k8s|kubectl.*delete`. -/
def k8sDeleteGuard (t : List Char) : Bool :=
  matchSeq2 [lit "delete"] [lit "kubernetes"] t ||
  matchSeq2 [lit "remove"] [lit "k8s"] t ||
  matchSeq2 [lit "kubectl"] [lit "delete"] t

/-- Regex `(list|show|get).*containers?|containers?.*running|ps`. -/
def dockerPsGuard (t : List Char) : Bool :=
  matchSeq2 [lit "list", lit "show", lit "get"] [lit "containers", lit "container"] t ||
  matchSeq2 [lit "containers", lit "container"] [lit "running"] t ||
  isSubB (lit "ps") t

/-- Regex `build.*image|docker.*build`. -/
def dockerBuildGuard (t : List Char) : Bool :=
  matchSeq2 [lit "build"] [lit "image"] t || matchSeq2 [lit "docker"] [lit "build"] t

/-- Regex `(list|show|get).*images?|images?.*list`. -/
def dockerImagesGuard (t : List Char) : Bool :=
  matchSeq2 [lit "list", lit "show", lit "get"] [lit "images", lit "image"] t ||
  matchSeq2 [lit "images", lit "image"] [lit "list"] t

/-- Regex `(list|show|get).*ec2|instances?.*list|ec2.*instances?`. -/
def awsEc2Guard (t : List Char) : Bool :=
  matchSeq2 [lit "list", lit "show", lit "get"] [lit "ec2"] t ||
  matchSeq2 [lit "instances", lit "instance"] [lit "list"] t ||
  matchSeq2 [lit "ec2"] [lit "instances", lit "instance"] t

/-- Regex `(list|show|get).*s3|buckets?.*list|s3.*buckets?`. -/
def awsS3Guard (t : List Char) : Bool :=
  matchSeq2 [lit "list", lit "show", lit "get"] [lit "s3"] t ||
  matchSeq2 [lit "buckets", lit "bucket"] [lit "list"] t ||
  matchSeq2 [lit "s3"] [lit "buckets", lit "bucket"] t

/-- Regex `(install|update|upgrade).*package|apt.*install|yum.*install|dnf.*install`. -/
def pkgGuard (t : List Char) : Bool :=
  matchSeq2 [lit "install", lit "update", lit "upgrade"] [lit "package"] t ||
  matchSeq2 [lit "apt"] [lit "install"] t ||
  matchSeq2 [lit "yum"] [lit "install"] t ||
  matchSeq2 [lit "dnf"] [lit "install"] t

/-- Regex `(start|stop|restart|status).*service|systemctl.*service`. -/
def svcGuard (t : List Char) : Bool :=
  matchSeq2 [lit "start", lit "stop", lit "restart", lit "status"] [lit "service"] t ||
  matchSeq2 [lit "systemctl"] [lit "service"] t

/-- Regex `(check|show|display).*logs|journalctl|tail.*log`. -/
def viewLogsGuard (t : List Char) : Bool :=
  matchSeq2 [lit "check", lit "show", lit "display"] [lit "logs"] t ||
  isSubB (lit "journalctl") t ||
  matchSeq2 [lit "tail"] [lit "log"] t

/-- Regex `(analyze|review|check|summarize|inspect).*(logs?|log files?|pod logs?)`. -/
def logAnalysisGuard (t : List Char) : Bool :=
  matchSeq2 analysisVerbs logNounAlts t

/-- Body of the pod-status rule: namespace-token extraction, falling
through to the plain `kubectl get pods` suggestion. -/
def podsBody (t : String) : CommandSuggestion :=
  if goContains t "namespace" then
    match findNamespaceToken (goFields t.data) with
    | some ns => podsNsSug ⟨ns⟩
    | none => podsDefaultSug
  else podsDefaultSug

/-- Key of the regex `pod\s+([a-zA-Z0-9-]+)`. -/
def podKeys : List (List Char) := [lit "pod"]

/-- Key of the regex `namespace\s+([a-zA-Z0-9-]+)`. -/
def namespaceKeys : List (List Char) := [lit "namespace"]

/-- Body of the log-analysis rule: pod and namespace extraction by regex,
with the namespace defaulting to `default`; no pod name means the generic
system-log fallback. -/
def logAnalysisBody (t : String) : CommandSuggestion :=
  let ns := match findKeyCap namespaceKeys t.data with
    | some (_, n) => n
    | none => lit "default"
  match findKeyCap podKeys t.data with
  | some (_, p) => podLogSug p ns
  | none => genLogSug t

/-- First-match-wins evaluation of an ordered (guard, suggestion) table:
this is exactly the semantics of the sequential `if matched { return … }`
chain in the Go `ParseIntent`. -/
def firstFire : List (Bool × CommandSuggestion) → Option CommandSuggestion
  | [] => none
  | (b, s) :: rest => if b then some s else firstFire rest

/-- All rules of `ParseIntent` before the final log-file-path rule, in
source order, on the already-lower-cased input.  The Go nesting
`if matched { if locality { return … } }` of the first rule (whose
non-local case falls through) is expressed as the conjunction of the two
guards — identical control flow. -/
def ruleList (env : Env) (t : String) : List (Bool × CommandSuggestion) :=
  [ (sysUsageGuard t.data && localityGuard t.data, sysMonitorSug t),
    (tfPlanGuard t.data, tfPlanSug),
    (tfApplyGuard t.data, tfApplySug),
    (tfDestroyGuard t.data, tfDestroySug),
    (ansibleScaffoldGuard t.data, ansibleScaffoldSug t),
    (ansibleRunGuard t.data, ansibleRunSug),
    (ansibleCheckGuard t.data, ansibleCheckSug),
    (podsGuard t.data, podsBody t),
    (k8sApplyGuard t.data, k8sApplySug),
    (k8sDeleteGuard t.data, k8sDeleteSug),
    (dockerPsGuard t.data, dockerPsSug),
    (dockerBuildGuard t.data, dockerBuildSug),
    (dockerImagesGuard t.data, dockerImagesSug),
    (awsEc2Guard t.data, awsEc2Sug),
    (awsS3Guard t.data, awsS3Sug),
    (pkgGuard t.data, pkgSug env t),
    (svcGuard t.data, svcSug t),
    (viewLogsGuard t.data, viewLogsSug t),
    (logAnalysisGuard t.data, logAnalysisBody t) ]

/-- The pre-file-rule part of `ParseIntent`: first rule of the table whose
guard fires, `none` when no rule before the final one fires. -/
def ParseIntentMain (env : Env) (t : String) : Option CommandSuggestion :=
  firstFire (ruleList env t)

/-- `ParseIntent` (Go): lower-cases the input once at entry, runs the rules
in source order, ending with the log-file-path rule. -/
def ParseIntent (env : Env) (input : String) : Option CommandSuggestion :=
  let t := goToLower input
  match ParseIntentMain env t with
  | some sug => some sug
  | none =>
    match fileFindAux t.data with
    | some p => some (fileLogSug p)
    | none => none

theorem podsBody_cases (t : String) :
    (∃ ns, podsBody t = podsNsSug ns) ∨ podsBody t = podsDefaultSug := by
  unfold podsBody
  split
  · split
    · exact Or.inl ⟨_, rfl⟩
    · exact Or.inr rfl
  · exact Or.inr rfl

theorem logAnalysisBody_cases (t : String) :
    (∃ pod ns, pod.all isWordChar = true ∧ ns.all isWordChar = true ∧
      logAnalysisBody t = podLogSug pod ns) ∨ logAnalysisBody t = genLogSug t := by
  cases hp : findKeyCap podKeys t.data with
  | none => exact Or.inr (by simp [logAnalysisBody, hp])
  | some kp =>
    obtain ⟨k, p⟩ := kp
    left
    cases hn : findKeyCap namespaceKeys t.data with
    | none =>
      exact ⟨p, lit "default", (findKeyCap_sound hp).2, by decide,
        by simp [logAnalysisBody, hp, hn]⟩
    | some kn =>
      obtain ⟨k2, n⟩ := kn
      exact ⟨p, n, (findKeyCap_sound hp).2, (findKeyCap_sound hn).2,
        by simp [logAnalysisBody, hp, hn]⟩

theorem firstFire_mem {l : List (Bool × CommandSuggestion)} {r : CommandSuggestion}
    (h : firstFire l = some r) : (true, r) ∈ l := by
  induction l with
  | nil => exact absurd h (by simp [firstFire])
  | cons p rest ih =>
    obtain ⟨b, s⟩ := p
    rw [firstFire] at h
    split at h
    · rename_i hb
      obtain rfl : s = r := by simpa using h
      exact hb ▸ List.mem_cons_self _ _
    · exact List.mem_cons_of_mem _ (ih h)

theorem firstFire_none {l : List (Bool × CommandSuggestion)}
    (h : firstFire l = none) : ∀ p ∈ l, p.1 = false := by
  induction l with
  | nil => intro p hp; cases hp
  | cons q rest ih =>
    obtain ⟨b, s⟩ := q
    rw [firstFire] at h
    split at h
    · exact absurd h (by simp)
    · rename_i hb
      intro p hp
      rcases List.mem_cons.mp hp with rfl | hp
      · simpa using hb
      · exact ih h p hp

/-- Case analysis on a successful pre-file-rule match: the result is one of
the fixed per-rule records, a namespaced pod-status record, or a pod-log
record whose spliced-in names consist of capture-class characters. -/
theorem ParseIntentMain_cases {env : Env} {t : String} {r : CommandSuggestion}
    (h : ParseIntentMain env t = some r) :
    r ∈ [sysMonitorSug t, tfPlanSug, tfApplySug, tfDestroySug, ansibleScaffoldSug t,
      ansibleRunSug, ansibleCheckSug, podsDefaultSug, k8sApplySug, k8sDeleteSug,
      dockerPsSug, dockerBuildSug, dockerImagesSug, awsEc2Sug, awsS3Sug,
      pkgSug env t, svcSug t, viewLogsSug t, genLogSug t] ∨
    (∃ ns, r = podsNsSug ns) ∨
    (∃ pod ns, pod.all isWordChar = true ∧ ns.all isWordChar = true ∧
      r = podLogSug pod ns) := by
  have hmem := firstFire_mem h
  simp only [ruleList, List.mem_cons, List.not_mem_nil, or_false, Prod.mk.injEq] at hmem
  rcases hmem with ⟨_, rfl⟩ | ⟨_, rfl⟩ | ⟨_, rfl⟩ | ⟨_, rfl⟩ | ⟨_, rfl⟩ | ⟨_, rfl⟩ |
    ⟨_, rfl⟩ | ⟨_, rfl⟩ | ⟨_, rfl⟩ | ⟨_, rfl⟩ | ⟨_, rfl⟩ | ⟨_, rfl⟩ | ⟨_, rfl⟩ |
    ⟨_, rfl⟩ | ⟨_, rfl⟩ | ⟨_, rfl⟩ | ⟨_, rfl⟩ | ⟨_, rfl⟩ | ⟨_, rfl⟩
  all_goals first
    | (left; simp; done)
    | (rcases podsBody_cases t with ⟨ns, he⟩ | he
       · exact Or.inr (Or.inl ⟨ns, he⟩)
       · rw [he]; left; simp)
    | (rcases logAnalysisBody_cases t with ⟨pod, ns, h1, h2, he⟩ | he
       · exact Or.inr (Or.inr ⟨pod, ns, h1, h2, he⟩)
       · rw [he]; left; simp)

/-- When no pre-file rule fires, in particular the log-analysis guard is
false. -/
theorem ParseIntentMain_none {env : Env} {t : String}
    (h : ParseIntentMain env t = none) : logAnalysisGuard t.data = false := by
  exact firstFire_none h (logAnalysisGuard t.data, logAnalysisBody t) (by simp [ruleList])

/-- Character class `[^-\s]` of the post-processing rewrite regex. -/
def dotLogClass (c : Char) : Bool := !(isSpaceRE2 c) && !(c = '-')

/-- `[^-\s]+\.log` anchored at the current position (greedy `+` with
backtracking into the literal `.log`, like the slash-path pattern). -/
def matchDotLogAt (u : List Char) : Option (List Char) :=
  match bestDotLog (u.takeWhile dotLogClass) with
  | some k => some ((u.takeWhile dotLogClass).take k ++ dotLogLit)
  | none => none

/-- Leftmost scan for the rewrite regex `([^-\s]+\.log)` used by the
post-processing step in `main`. -/
def findDotLog : List Char → Option (List Char)
  | [] => none
  | c :: t =>
    match matchDotLogAt (c :: t) with
    | some p => some p
    | none => findDotLog t

/-- The suggestion-synthesis flow of `main`: the advisor result (if any)
goes through the two post-processing heuristic blocks, and only a missing
advisor result falls back to the rule matcher.  `aiResult` is `none` both
when no advisor is configured and when the advisor declined or returned
nothing usable. -/
def synthesize (env : Env) (aiResult : Option CommandSuggestion)
    (message : String) : Option CommandSuggestion :=
  let s1 : Option CommandSuggestion :=
    match aiResult with
    | some sug =>
      if sug.tool = "kubectl" && goContains sug.command "logs" &&
          (goContains (goToLower message) "analyze" ||
            goContains (goToLower message) "review") then
        some { sug with intent := "analyze_logs" }
      else some sug
    | none => none
  let s2 : Option CommandSuggestion :=
    match s1 with
    | some sug =>
      if goContains sug.command ".log" &&
          (goContains (goToLower message) "analyze" ||
            goContains (goToLower message) "review" ||
            goContains (goToLower message) "check" ||
            goContains (goToLower message) "summarize" ||
            goContains (goToLower message) "inspect") then
        match findDotLog sug.command.data with
        | some m =>
          some { sug with intent := "analyze_logs",
                          command := ⟨lit "tail -n 100 " ++ m⟩ }
        | none => some { sug with intent := "analyze_logs" }
      else some sug
    | none => none
  match s2 with
  | some sug => some sug
  | none => ParseIntent env message

/-- Observable outcome of the one-shot CLI path of `main` when no advisor
is configured: exit code, the two lines of the could-not-understand path,
and the suggestion handed to the interaction layer. -/
structure OneShotResult where
  exitCode : Nat
  printedCouldNotUnderstand : Bool
  printedEnableAIHint : Bool
  handled : Option CommandSuggestion
  deriving Repr, DecidableEq

/-- The one-shot flow of `main` with no advisor configured (no API key and
`-ai` unset): an empty message calls `os.Exit(1)`; a request that nothing
understands prints the could-not-understand line plus the enable-AI hint and
returns from `main` (process exit code 0); otherwise the suggestion goes to
`handleInteraction` and `main` returns (exit code 0). -/
def runOneShotNoAdvisor (env : Env) (message : String) : OneShotResult :=
  if message = "" then
    { exitCode := 1, printedCouldNotUnderstand := false,
      printedEnableAIHint := false, handled := none }
  else
    match synthesize env none message with
    | none =>
      { exitCode := 0, printedCouldNotUnderstand := true,
        printedEnableAIHint := true, handled := none }
    | some sug =>
      { exitCode := 0, printedCouldNotUnderstand := false,
        printedEnableAIHint := false, handled := some sug }

/-- The interactive answers read by `getUserConfirmation` at each distinct
prompt of `handleInteraction`; every prompt is asked at most once per run. -/
structure Answers where
  analyze : Bool
  execute : Bool
  install : Bool
  dryRun : Bool
  proceedAfterDry : Bool
  runPlaybook : Bool
  deriving Repr, DecidableEq

/-- External collaborators consulted by `handleInteraction`: whether the
tool is installed, whether installing succeeds, and the outcomes of the
scaffold workflow's file generation (out-of-scope I/O, modelled as boolean
outcomes). -/
structure ToolEnv where
  installed : Bool
  installWorks : Bool
  scaffoldFilesOK : Bool
  scaffoldFilesIdentified : Bool
  deriving Repr, DecidableEq

/-- Observable trace of one `handleInteraction` run: which prompts were
asked and which commands were executed. -/
structure InteractionTrace where
  ranPreviewCmd : Bool := false
  ranAnalysis : Bool := false
  askedAnalyze : Bool := false
  askedInstall : Bool := false
  ranInstaller : Bool := false
  askedDryRun : Bool := false
  ranDryRun : Bool := false
  askedProceedAfterDry : Bool := false
  askedExecute : Bool := false
  askedRunPlaybook : Bool := false
  scaffolded : Bool := false
  ranPlaybook : Bool := false
  ranRealCommand : Bool := false
  deriving Repr, DecidableEq

/-- The tail of `handleInteraction` after the confirmation stage: the
ansible-scaffold workflow, or `executeCommand` for every other tool. -/
def scaffoldOrExecute (tenv : ToolEnv) (ans : Answers) (sug : CommandSuggestion)
    (base : InteractionTrace) : InteractionTrace :=
  if sug.tool = "ansible_scaffold" then
    if !tenv.scaffoldFilesOK then base
    else
      let intentStr := goToLower (sug.intent ++ " " ++ sug.command)
      let base := { base with scaffolded := true }
      if goContains intentStr "run" || goContains intentStr "execute" ||
          goContains intentStr "do " then
        if tenv.scaffoldFilesIdentified then
          if ans.runPlaybook then
            { base with askedRunPlaybook := true, ranPlaybook := true }
          else { base with askedRunPlaybook := true }
        else base
      else base
  else { base with ranRealCommand := true }

/-- The dry-run stage of `handleInteraction`: when a dry run is available it
is offered; accepting runs it (when the dry-run command is non-empty) and
asks whether to proceed; declining the offer falls through directly to the
execution stage, exactly as the Go code does.  Without a dry run a single
execute confirmation guards the command. -/
def dryRunStage (tenv : ToolEnv) (ans : Answers) (sug : CommandSuggestion)
    (base : InteractionTrace) : InteractionTrace :=
  if sug.hasDryRun then
    let base := { base with askedDryRun := true }
    if ans.dryRun then
      let base := { base with ranDryRun := !(sug.dryRunCommand = ""),
                              askedProceedAfterDry := true }
      if ans.proceedAfterDry then scaffoldOrExecute tenv ans sug base
      else base
    else scaffoldOrExecute tenv ans sug base
  else
    let base := { base with askedExecute := true }
    if ans.execute then scaffoldOrExecute tenv ans sug base
    else base

/-- `handleInteraction` (Go): the interaction state machine keyed off the
suggestion's `intent` and `tool`, producing the observable trace. -/
def handleInteraction (tenv : ToolEnv) (ans : Answers)
    (sug : CommandSuggestion) : InteractionTrace :=
  if sug.intent = "analyze_logs" then
    { ranPreviewCmd := true, askedAnalyze := true, ranAnalysis := ans.analyze }
  else
    let toolName := if sug.tool = "aws-cli" then "aws" else sug.tool
    if toolName = "system_admin" then
      if ans.execute then { askedExecute := true, ranRealCommand := true }
      else { askedExecute := true }
    else
      if !tenv.installed then
        if ans.install then
          if tenv.installWorks then
            dryRunStage tenv ans sug { askedInstall := true, ranInstaller := true }
          else { askedInstall := true, ranInstaller := true }
        else { askedInstall := true }
      else dryRunStage tenv ans sug {}

theorem ParseIntent_eq (env : Env) (input : String) :
    ParseIntent env input =
      match ParseIntentMain env (goToLower input) with
      | some sug => some sug
      | none =>
        match fileFindAux (goToLower input).data with
        | some p => some (fileLogSug p)
        | none => none := rfl

theorem takeWhile_isPrefB (p : Char → Bool) (l : List Char) :
    isPrefB (l.takeWhile p) l = true := by
  induction l with
  | nil => rfl
  | cons c t ih =>
    by_cases h : p c = true
    · simp [List.takeWhile_cons, h, isPrefB, ih]
    · simp [List.takeWhile_cons, h, isPrefB_nil]

theorem isSubB_dropWhile (p : Char → Bool) {x l : List Char}
    (h : isSubB x (l.dropWhile p) = true) : isSubB x l = true := by
  induction l with
  | nil => simpa using h
  | cons c t ih =>
    by_cases hc : p c = true
    · rw [List.dropWhile_cons, if_pos hc] at h
      exact isSubB_cons _ (ih h)
    · rwa [List.dropWhile_cons, if_neg hc] at h

theorem goFieldsAux_mem_isSubB :
    ∀ (fuel : Nat) (s x : List Char), x ∈ goFieldsAux fuel s → isSubB x s = true := by
  intro fuel
  induction fuel with
  | zero => intro s x hx; cases hx
  | succ f ih =>
    intro s x hx
    simp only [goFieldsAux] at hx
    cases hs1 : s.dropWhile isFieldsSpace with
    | nil => rw [hs1] at hx; cases hx
    | cons c rest =>
      rw [hs1] at hx
      rcases List.mem_cons.mp hx with rfl | hx
      · apply isSubB_dropWhile isFieldsSpace
        rw [hs1]
        exact isSubB_of_isPrefB (takeWhile_isPrefB _ _)
      · have hsub := ih _ _ hx
        have hsub2 : isSubB x (c :: rest) = true :=
          isSubB_dropWhile (fun c => !(isFieldsSpace c)) hsub
        have : isSubB x (s.dropWhile isFieldsSpace) = true := hs1 ▸ hsub2
        exact isSubB_dropWhile isFieldsSpace this

theorem goFields_mem_isSubB {s x : List Char} (hx : x ∈ goFields s) :
    isSubB x s = true := goFieldsAux_mem_isSubB _ _ _ hx

theorem findNamespaceToken_first (w : List Char) (ws2 : List (List Char)) :
    ∀ ws1 : List (List Char), lit "namespace" ∉ ws1 →
      findNamespaceToken (ws1 ++ (lit "namespace" :: w :: ws2)) = some w := by
  intro ws1
  induction ws1 with
  | nil => intro _; simp [findNamespaceToken]
  | cons u us ih =>
    intro hnot
    have hu : ¬(u = lit "namespace") := fun h => hnot (by simp [h])
    have hus : lit "namespace" ∉ us := fun h => hnot (List.mem_cons_of_mem _ h)
    cases us with
    | nil => simp [findNamespaceToken, hu]
    | cons v us2 =>
      simp only [List.cons_append, findNamespaceToken, hu, if_false]
      simpa using ih hus

theorem findNamespaceToken_none :
    ∀ ws : List (List Char), lit "namespace" ∉ ws → findNamespaceToken ws = none := by
  intro ws
  induction ws with
  | nil => intro _; rfl
  | cons u rest ih =>
    intro hnot
    have hu : ¬(u = lit "namespace") := fun h => hnot (by simp [h])
    cases rest with
    | nil => rfl
    | cons v rest2 =>
      have := ih (fun h => hnot (List.mem_cons_of_mem _ h))
      simp only [findNamespaceToken, hu, if_false]
      exact this

/-- C8: fallback monotonicity of the synthesizer — for every input, when
the advisor is unconfigured or returned null/empty (both modelled as a
`none` advisor result), the synthesized suggestion equals the rule
matcher's result exactly; the post-processing heuristics only ever touch
advisor-produced suggestions. -/
theorem c8_fallback_monotonicity (env : Env) (message : String) :
    synthesize env none message = ParseIntent env message := rfl

/-- C10: the rule matcher is pure, deterministic under a fixed PATH-probe
environment, and case-insensitive — the input is lower-cased once at entry,
so two invocations agree, and inputs equal up to case give identical
results. -/
theorem c10_pure_case_insensitive (env : Env) (s₁ s₂ : String)
    (h : goToLower s₁ = goToLower s₂) :
    ParseIntent env s₁ = ParseIntent env s₁ ∧
    ParseIntent env s₁ = ParseIntent env s₂ := by
  refine ⟨rfl, ?_⟩
  rw [ParseIntent_eq, ParseIntent_eq, h]

/-- C10 witness: the theorem applied to the concrete pair
`"Show Pods"` / `"show pods"`. -/
theorem c10_witness :
    ParseIntent defaultEnv "Show Pods" = ParseIntent defaultEnv "show pods" :=
  (c10_pure_case_insensitive defaultEnv "Show Pods" "show pods" (by decide)).2

/-- C2 counterexample: the one-shot flow on `"xyzzy plugh"` with no advisor
prints the could-not-understand message and the enable-advisor hint, but
its exit code is 0, not 1 as the claim states — `main` returns normally on
that path and only the missing-message path calls `os.Exit(1)`. -/
theorem c2_exit_code_cex :
    (runOneShotNoAdvisor defaultEnv "xyzzy plugh").printedCouldNotUnderstand = true ∧
    (runOneShotNoAdvisor defaultEnv "xyzzy plugh").printedEnableAIHint = true ∧
    (runOneShotNoAdvisor defaultEnv "xyzzy plugh").exitCode ≠ 1 :=
  ⟨rfl, rfl, by decide⟩

/-- C2 (amended): when a non-empty one-shot request is understood by
neither the advisor (unconfigured) nor the rules, the program prints the
could-not-understand message with the enable-advisor hint and terminates
with exit code 0 (returning from `main`); exit code 1 is reserved for the
missing-message path. -/
theorem c2_no_match_prints_hint_exits_zero (env : Env) (message : String)
    (hne : message ≠ "") (hnone : synthesize env none message = none) :
    runOneShotNoAdvisor env message =
      { exitCode := 0, printedCouldNotUnderstand := true,
        printedEnableAIHint := true, handled := none } := by
  unfold runOneShotNoAdvisor
  rw [if_neg hne, hnone]

/-- C2 witness: the amended theorem applied to `"xyzzy plugh"`. -/
theorem c2_witness :
    runOneShotNoAdvisor defaultEnv "xyzzy plugh" =
      { exitCode := 0, printedCouldNotUnderstand := true,
        printedEnableAIHint := true, handled := none } :=
  c2_no_match_prints_hint_exits_zero defaultEnv "xyzzy plugh" (by decide) rfl

/-- C4 counterexample: on `"analyze /var/log/nginx/error.log"` with no
advisor the rule matcher does not return the claimed command
`tail -n 100 /var/log/nginx/error.log`: the earlier generic log-analysis
rule intercepts the input first. -/
theorem c4_claimed_command_cex :
    (ParseIntent defaultEnv "analyze /var/log/nginx/error.log").map
        CommandSuggestion.command ≠
      some "tail -n 100 /var/log/nginx/error.log" := by
  intro hcon
  have : (ParseIntent defaultEnv "analyze /var/log/nginx/error.log").map
      CommandSuggestion.command = some "sudo journalctl -n 50" := rfl
  rw [this] at hcon
  exact absurd (Option.some.inj hcon) (by decide)

/-- C4 (amended): for the input `"analyze /var/log/nginx/error.log"` the
rule matcher returns a suggestion with intent `analyze_logs`, but its
command is the generic log-analysis fallback `sudo journalctl -n 50` — the
earlier log-analysis rule fires and the final file-path rule is shadowed. -/
theorem c4_analyze_log_file_generic_rule (env : Env) :
    (ParseIntent env "analyze /var/log/nginx/error.log").map
        CommandSuggestion.intent = some "analyze_logs" ∧
    (ParseIntent env "analyze /var/log/nginx/error.log").map
        CommandSuggestion.command = some "sudo journalctl -n 50" ∧
    ParseIntent env "analyze /var/log/nginx/error.log" =
      some (genLogSug (goToLower "analyze /var/log/nginx/error.log")) :=
  ⟨rfl, rfl, rfl⟩

/-- C6 counterexample: `extractPackageCommand "install package docker"`
does not contain `install -y docker` — the capture group of
`(install|update|upgrade)\s+([a-zA-Z0-9-]+)` grabs the next token, which is
the literal word `package`. -/
theorem c6_install_docker_cex :
    goContains (extractPackageCommand defaultEnv "install package docker")
        "install -y docker" = false ∧
    extractPackageCommand defaultEnv "install package docker" =
      "sudo apt install -y package" :=
  ⟨by decide, rfl⟩

/-- C6 (amended): `extractPackageCommand "install package docker"` contains
`install -y package` (the first token after the install keyword) and begins
with the package-manager prefix matching whichever of apt/yum/dnf the PATH
probe finds available, defaulting to apt. -/
theorem c6_package_first_token (env : Env) :
    extractPackageCommand env "install package docker" =
      "sudo " ++ pkgManager env ++ " install -y package" ∧
    goContains (extractPackageCommand env "install package docker")
        "install -y package" = true := by
  obtain ⟨a, y, d⟩ := env
  cases a <;> cases y <;> cases d <;> exact ⟨rfl, by decide⟩

/-- C5: the final log-file-path rule of the matcher is unreachable — any
input matched by its regex is also matched by the earlier log-analysis
rule's regex, which always returns a suggestion first, so `ParseIntent`
always equals the matcher restricted to the rules before the file-path
rule. -/
theorem c5_file_path_rule_unreachable (env : Env) (s : String) :
    (∀ p, fileFindAux (goToLower s).data = some p →
      logAnalysisGuard (goToLower s).data = true) ∧
    ParseIntent env s = ParseIntentMain env (goToLower s) := by
  constructor
  · intro p hp
    exact fileFindAux_matchSeq2 hp
  · rw [ParseIntent_eq]
    cases hm : ParseIntentMain env (goToLower s) with
    | some r => simp
    | none =>
      cases hf : fileFindAux (goToLower s).data with
      | none => simp [hf]
      | some p =>
        exfalso
        have h1 := fileFindAux_matchSeq2 hf
        have h2 : matchSeq2 analysisVerbs logNounAlts (goToLower s).data = false :=
          ParseIntentMain_none hm
        rw [h1] at h2
        exact absurd h2 (by decide)

/-- C5 witness: the theorem applied to `"analyze /var/log/nginx/error.log"`,
an input on which the file-path regex does match. -/
theorem c5_witness :
    logAnalysisGuard (goToLower "analyze /var/log/nginx/error.log").data = true ∧
    ParseIntent defaultEnv "analyze /var/log/nginx/error.log" =
      ParseIntentMain defaultEnv (goToLower "analyze /var/log/nginx/error.log") :=
  ⟨(c5_file_path_rule_unreachable defaultEnv "analyze /var/log/nginx/error.log").1
      (lit "/var/log/nginx/error.log") (by decide),
   (c5_file_path_rule_unreachable defaultEnv "analyze /var/log/nginx/error.log").2⟩

/-- C9: for every suggestion returned by the rule matcher, `hasDryRun` is
true exactly when `dryRunCommand` is a non-empty string. -/
theorem c9_hasDryRun_iff (env : Env) (s : String) (sug : CommandSuggestion)
    (h : ParseIntent env s = some sug) :
    sug.hasDryRun = true ↔ sug.dryRunCommand ≠ "" := by
  rw [ParseIntent_eq] at h
  split at h
  · rename_i r hm
    obtain rfl : r = sug := by simpa using h
    rcases ParseIntentMain_cases hm with hmem | ⟨ns, rfl⟩ | ⟨pod, nsL, hp, hn, rfl⟩
    · simp only [List.mem_cons, List.not_mem_nil, or_false] at hmem
      rcases hmem with rfl | rfl | rfl | rfl | rfl | rfl | rfl | rfl | rfl | rfl | rfl |
        rfl | rfl | rfl | rfl | rfl | rfl | rfl | rfl
      all_goals simp [sysMonitorSug, tfPlanSug, tfApplySug, tfDestroySug,
        ansibleScaffoldSug, ansibleRunSug, ansibleCheckSug, podsDefaultSug,
        k8sApplySug, k8sDeleteSug, dockerPsSug, dockerBuildSug, dockerImagesSug,
        awsEc2Sug, awsS3Sug, pkgSug, svcSug, viewLogsSug, genLogSug]
    · simp [podsNsSug]
    · simp [podLogSug]
  · rename_i hm
    split at h
    · rename_i p hf
      obtain rfl : fileLogSug p = sug := by simpa using h
      simp [fileLogSug]
    · simp at h

/-- C9 witness: the theorem applied to the terraform-apply suggestion the
matcher produces for `"apply terraform configuration"`. -/
theorem c9_witness : tfApplySug.hasDryRun = true ↔ tfApplySug.dryRunCommand ≠ "" :=
  c9_hasDryRun_iff defaultEnv "apply terraform configuration" tfApplySug rfl

/-- C7: namespace extraction of the pod-status rule — whenever the token
`namespace` occurs in the whitespace-split input with a following token,
the first such following token is injected as the `-n` value; without the
token the command carries no `-n` flag; in particular
`"show pods namespace staging"` maps to `kubectl get pods -n staging` and
`"show pods"` to `kubectl get pods`. -/
theorem c7_namespace_extraction (env : Env) (t : String)
    (ws1 ws2 : List (List Char)) (w : List Char) :
    (goFields t.data = ws1 ++ (lit "namespace" :: w :: ws2) →
      lit "namespace" ∉ ws1 →
      (podsBody t).command = "kubectl get pods -n " ++ (⟨w⟩ : String)) ∧
    (lit "namespace" ∉ goFields t.data →
      (podsBody t).command = "kubectl get pods") ∧
    ParseIntent env "show pods namespace staging" = some (podsNsSug "staging") ∧
    ParseIntent env "show pods" = some podsDefaultSug := by
  refine ⟨?_, ?_, rfl, rfl⟩
  · intro hsplit hnot
    have hmem : lit "namespace" ∈ goFields t.data := by
      rw [hsplit]; exact List.mem_append_right _ (List.mem_cons_self _ _)
    have hcont : goContains t "namespace" = true := goFields_mem_isSubB hmem
    unfold podsBody
    rw [if_pos hcont, hsplit, findNamespaceToken_first w ws2 ws1 hnot]
    rfl
  · intro hnot
    unfold podsBody
    cases hcont : goContains t "namespace" with
    | false => rfl
    | true =>
      rw [if_pos rfl, findNamespaceToken_none _ hnot]
      rfl

/-- C7 witness: both general conjuncts applied to their concrete examples
(`"show pods namespace staging"` and `"show pods"`), discharging the token
hypotheses there. -/
theorem c7_witness :
    (podsBody "show pods namespace staging").command = "kubectl get pods -n staging" ∧
    (podsBody "show pods").command = "kubectl get pods" := by
  constructor
  · have := (c7_namespace_extraction defaultEnv "show pods namespace staging"
      [lit "show", lit "pods"] [] (lit "staging")).1 (by decide) (by decide)
    simpa using this
  · exact (c7_namespace_extraction defaultEnv "show pods" [] [] []).2.1 (by decide)

/-- C3 counterexample: on input `"analyze logs detail"` (the word `detail`
contains the substring `tail`) the rule matcher produces a suggestion with
intent `analyze_logs` whose command is the unbounded streaming invocation
`sudo tail -f /var/log/syslog`, refuting the claim that an `analyze_logs`
command never contains `tail -f`. -/
theorem c3_streaming_command_cex :
    ParseIntent defaultEnv "analyze logs detail" =
      some (genLogSug (goToLower "analyze logs detail")) ∧
    (genLogSug (goToLower "analyze logs detail")).intent = "analyze_logs" ∧
    (genLogSug (goToLower "analyze logs detail")).command =
      "sudo tail -f /var/log/syslog" ∧
    goContains (genLogSug (goToLower "analyze logs detail")).command "tail -f" = true :=
  ⟨rfl, rfl, rfl, by decide⟩

/-- C3 (amended): every rule-matcher suggestion with intent `analyze_logs`
has a command free of the streaming flag `tail -f`, except that the generic
log-analysis fallback can produce exactly `sudo tail -f /var/log/syslog`
(when the lowered input mentions `tail` but neither `journal` nor
`system`); the pod-log and file-path analysis commands are always bounded
previews. -/
theorem c3_analyze_logs_bounded (env : Env) (s : String) (sug : CommandSuggestion)
    (h : ParseIntent env s = some sug) (hint : sug.intent = "analyze_logs")
    (htail : goContains sug.command "tail -f" = true) :
    sug.command = "sudo tail -f /var/log/syslog" := by
  rw [ParseIntent_eq] at h
  split at h
  · rename_i r hm
    obtain rfl : r = sug := by simpa using h
    rcases ParseIntentMain_cases hm with hmem | ⟨ns, rfl⟩ | ⟨pod, nsL, hp, hn, rfl⟩
    · simp only [List.mem_cons, List.not_mem_nil, or_false] at hmem
      rcases hmem with rfl | rfl | rfl | rfl | rfl | rfl | rfl | rfl | rfl | rfl | rfl |
        rfl | rfl | rfl | rfl | rfl | rfl | rfl | rfl
      all_goals try (exfalso; revert hint; simp [sysMonitorSug, tfPlanSug, tfApplySug,
        tfDestroySug, ansibleScaffoldSug, ansibleRunSug, ansibleCheckSug, podsDefaultSug,
        k8sApplySug, k8sDeleteSug, dockerPsSug, dockerBuildSug, dockerImagesSug,
        awsEc2Sug, awsS3Sug, pkgSug, svcSug, viewLogsSug]; done)
      have hcmd : (genLogSug (goToLower s)).command = extractLogCommand (goToLower s) := rfl
      rw [hcmd] at htail ⊢
      simp only [extractLogCommand] at htail ⊢
      by_cases h1 : (goContains (goToLower (goToLower s)) "journal" ||
          goContains (goToLower (goToLower s)) "system") = true
      · rw [if_pos h1] at htail
        exact absurd htail (by decide)
      · by_cases h2 : goContains (goToLower (goToLower s)) "tail" = true
        · rw [if_neg h1, if_pos h2]
        · rw [if_neg h1, if_neg h2] at htail
          exact absurd htail (by decide)
    · exfalso; revert hint; simp [podsNsSug]
    · exfalso
      have hfalse := kubectl_logs_no_tailf pod nsL hp hn
      have heq : goContains (podLogSug pod nsL).command "tail -f" =
          isSubB tailF
            (lit "kubectl logs " ++ (pod ++ (lit " -n " ++ (nsL ++ lit " --tail=100")))) :=
        rfl
      rw [heq, hfalse] at htail
      exact absurd htail (by decide)
  · rename_i hm
    split at h
    · rename_i p hf
      exfalso
      have h1 := fileFindAux_matchSeq2 hf
      have h2 : matchSeq2 analysisVerbs logNounAlts (goToLower s).data = false :=
        ParseIntentMain_none hm
      rw [h1] at h2
      exact absurd h2 (by decide)
    · simp at h

/-- C3 witness: the amended theorem applied to the input
`"analyze logs detail"`, discharging all three hypotheses there. -/
theorem c3_witness :
    (genLogSug (goToLower "analyze logs detail")).command =
      "sudo tail -f /var/log/syslog" :=
  c3_analyze_logs_bounded defaultEnv "analyze logs detail"
    (genLogSug (goToLower "analyze logs detail")) rfl rfl (by decide)

/-- C1 (code bug): the claim — declining the dry-run offer is a clean no-op
and the real command only runs after a separate explicit confirmation — is
violated by the code.  For the terraform-apply suggestion the matcher
produces (dry run available, tool installed), answering no to
`Would you like to perform a dry run first?` (with every other answer also
no) falls through directly to `executeCommand`: the trace shows the
dry-run offer was made, no dry run ran, no further confirmation of any kind
was asked, and the real command was executed anyway. -/
theorem c1_dry_run_decline_executes :
    ParseIntent defaultEnv "apply terraform configuration" = some tfApplySug ∧
    tfApplySug.hasDryRun = true ∧
    handleInteraction
      { installed := true, installWorks := true,
        scaffoldFilesOK := true, scaffoldFilesIdentified := true }
      { analyze := false, execute := false, install := false,
        dryRun := false, proceedAfterDry := false, runPlaybook := false }
      tfApplySug =
      { askedDryRun := true, ranRealCommand := true } :=
  ⟨rfl, rfl, rfl⟩

end Ops0
